import Mathlib

/-!
Verification of the binary-to-text codec and multi-source ingestion layer of
`arctic-utils` (`src/lib/FileConvertor.ts`, both the server-only variant and the
dual-environment variant of the `FileConverter` class) and of the `Localization`
façade (`src/lib/Localization.ts`).

Modelling conventions:
- JS strings are `List Char` (the texts involved are ASCII); binary strings
  (outputs of `atob`, inputs of `btoa`) are `List Nat` of UTF-16 code units.
- Byte buffers (`Buffer`, `Uint8Array`, `ArrayBuffer`) are `List Nat`; a real
  typed array always holds values `< 256`, which theorems assume via `ByteOk`.
- The platform primitives the source calls (`Buffer.prototype.toString`,
  `Buffer.from(str, enc)`, `btoa`, `atob`, `parseInt`, `Number.prototype.toString(16)`,
  `new URL`, `Intl.NumberFormat.supportedLocalesOf`, `fs`, `fetch`) are not part
  of the repository; they are modelled from their documented platform semantics,
  as noted in each definition's doc comment.
- `async` I/O is modelled by passing an `IOEnv` record of `Except`-valued
  functions; a JS `throw` is an `Except.error`, a caught-and-nulled failure is
  an `Option` that is `none`.
-/

/-- A list of `Nat` is a faithful image of a JS byte buffer when every entry is a byte. -/
def ByteOk (l : List Nat) : Prop := ∀ b ∈ l, b < 256

instance : DecidablePred ByteOk := fun l => List.decidableBAll _ l

/-! ## Base64 core

`Buffer.prototype.toString('base64')` (Node) and `btoa` (browser) both emit
RFC 4648 standard-alphabet base64 with `=` padding; `Buffer.from(s, 'base64')`
(Node) is the lenient decoder that skips characters outside the alphabet and
stops at the first `=`; `atob` (browser) is the WHATWG forgiving-base64 decoder.
-/

/-- The RFC 4648 standard base64 alphabet, as used by Node's Buffer and by `btoa`/`atob`. -/
def base64Alphabet : List Char :=
  ['A','B','C','D','E','F','G','H','I','J','K','L','M','N','O','P',
   'Q','R','S','T','U','V','W','X','Y','Z',
   'a','b','c','d','e','f','g','h','i','j','k','l','m','n','o','p',
   'q','r','s','t','u','v','w','x','y','z',
   '0','1','2','3','4','5','6','7','8','9','+','/']

/-- The character for a 6-bit value (alphabet lookup). -/
def valToB64Char (v : Nat) : Char := base64Alphabet.getD v 'A'

/-- Inverse alphabet lookup (the `unbase64` table of Node's decoder and the
WHATWG alphabet test): `some` for the 64 alphabet characters, `none` otherwise. -/
def unbase64 (c : Char) : Option Nat :=
  if 'A' ≤ c ∧ c ≤ 'Z' then some (c.toNat - 65)
  else if 'a' ≤ c ∧ c ≤ 'z' then some (c.toNat - 71)
  else if '0' ≤ c ∧ c ≤ '9' then some (c.toNat + 4)
  else if c = '+' then some 62
  else if c = '/' then some 63
  else none

/-- The 6-bit values of the base64 encoding of a byte list: each 3-byte group
yields 4 values, a trailing 2-byte group yields 3, a trailing 1-byte group
yields 2 (low bits zero-filled), mirroring the grouping of the Node encoder. -/
def b64EncodeVals : List Nat → List Nat
  | b1 :: b2 :: b3 :: rest =>
      (b1 / 4) :: ((b1 % 4) * 16 + b2 / 16) :: ((b2 % 16) * 4 + b3 / 64) :: (b3 % 64)
        :: b64EncodeVals rest
  | [b1, b2] => [b1 / 4, (b1 % 4) * 16 + b2 / 16, (b2 % 16) * 4]
  | [b1] => [b1 / 4, (b1 % 4) * 16]
  | [] => []

/-- The `=` padding appended for a byte count `n`: none for a full final group,
`==` after a 1-byte group, `=` after a 2-byte group. -/
def b64Pad (n : Nat) : List Char :=
  match n % 3 with
  | 0 => []
  | 1 => ['=', '=']
  | _ => ['=']

/-- Modelled platform primitive: `Buffer.prototype.toString('base64')` — RFC 4648
standard-alphabet base64 with `=` padding. -/
def nodeBase64Encode (b : List Nat) : List Char :=
  (b64EncodeVals b).map valToB64Char ++ b64Pad b.length

/-- Reassembles bytes from a list of 6-bit values: 4 values yield 3 bytes, a
trailing pair yields 1 byte, a trailing triple yields 2 bytes (leftover low bits
are discarded), a trailing single value is dropped.  This is the group math
shared by Node's lenient decoder and the WHATWG forgiving-base64 decoder. -/
def b64DecodeVals : List Nat → List Nat
  | a :: b :: c :: d :: rest =>
      (a * 4 + b / 16) :: ((b % 16) * 16 + c / 4) :: ((c % 4) * 64 + d)
        :: b64DecodeVals rest
  | [a, b] => [a * 4 + b / 16]
  | [a, b, c] => [a * 4 + b / 16, (b % 16) * 16 + c / 4]
  | _ => []

/-- The character scan of Node's base64 decoder: characters outside the alphabet
are skipped, and the first `=` stops decoding. -/
def nodeCollectB64 : List Char → List Nat
  | [] => []
  | c :: rest =>
      if c = '=' then []
      else
        match unbase64 c with
        | some v => v :: nodeCollectB64 rest
        | none => nodeCollectB64 rest

/-- Modelled platform primitive: `Buffer.from(s, 'base64')` — Node's lenient
base64 decoder (skip invalid characters, stop at `=`, never throw). -/
def nodeBase64DecodeBytes (s : List Char) : List Nat :=
  b64DecodeVals (nodeCollectB64 s)

/-- ASCII whitespace stripped by the WHATWG forgiving-base64 decoder. -/
def isJsWhitespace (c : Char) : Bool :=
  c = ' ' || c = '\t' || c = '\n' || c = '\x0C' || c = '\r'

/-- Removal of one or two trailing `=` characters (step 2 of forgiving-base64). -/
def stripPad (t : List Char) : List Char :=
  match t.reverse with
  | c :: r =>
      if c = '=' then
        match r with
        | c2 :: r2 => if c2 = '=' then r2.reverse else r.reverse
        | [] => r.reverse
      else t
  | [] => t

/-- Modelled platform primitive: `atob` — the WHATWG forgiving-base64 decoder.
Strips ASCII whitespace; if the length is then a multiple of 4, strips up to two
trailing `=`; fails if the remaining length is `1 mod 4` or any remaining
character is outside the alphabet; otherwise decodes (a trailing 2- or 3-value
group contributes 1 or 2 bytes, leftover bits discarded).  The result is the
byte list underlying the returned binary string. -/
def atobDecode (s : List Char) : Option (List Nat) :=
  let t := s.filter (fun c => !isJsWhitespace c)
  let t2 := if t.length % 4 = 0 then stripPad t else t
  if t2.length % 4 = 1 then none
  else if t2.all (fun c => (unbase64 c).isSome) then
    some (b64DecodeVals (t2.map (fun c => (unbase64 c).getD 0)))
  else none

/-- The big-endian bit list (as 0/1 naturals) of one byte, used by the bit-level
description of `btoa`. -/
def byteBits (b : Nat) : List Nat :=
  [b / 128 % 2, b / 64 % 2, b / 32 % 2, b / 16 % 2, b / 8 % 2, b / 4 % 2, b / 2 % 2, b % 2]

/-- The value of a big-endian bit list. -/
def valOfBits (l : List Nat) : Nat := l.foldl (fun a bit => 2 * a + bit) 0

/-- Splits a bit list into 6-bit groups, zero-filling a final partial group. -/
def group6 : List Nat → List (List Nat)
  | b1 :: b2 :: b3 :: b4 :: b5 :: b6 :: rest => [b1, b2, b3, b4, b5, b6] :: group6 rest
  | [] => []
  | [b1] => [[b1, 0, 0, 0, 0, 0]]
  | [b1, b2] => [[b1, b2, 0, 0, 0, 0]]
  | [b1, b2, b3] => [[b1, b2, b3, 0, 0, 0]]
  | [b1, b2, b3, b4] => [[b1, b2, b3, b4, 0, 0]]
  | [b1, b2, b3, b4, b5] => [[b1, b2, b3, b4, b5, 0]]

/-- Modelled platform primitive: `btoa` — fails (throws `InvalidCharacterError`)
if any code unit of the argument exceeds 255; otherwise concatenates the 8-bit
big-endian forms of the code units, splits into zero-filled 6-bit groups, maps
each through the standard alphabet, and appends `=` padding. -/
def btoaEncode (bytes : List Nat) : Option (List Char) :=
  if bytes.all (fun b => b < 256) then
    some ((group6 (bytes.flatMap byteBits)).map (fun g => valToB64Char (valOfBits g))
      ++ b64Pad bytes.length)
  else none

/-! ## Hex core -/

/-- The lowercase hex digit for a value `< 16` (as emitted by Node's hex encoder
and by `Number.prototype.toString(16)`). -/
def hexDigitChar (d : Nat) : Char :=
  if d < 10 then Char.ofNat (48 + d) else Char.ofNat (87 + d)

/-- Hex digit value of a character; Node's hex decoder and `parseInt(_, 16)`
both accept either case. -/
def hexVal (c : Char) : Option Nat :=
  if '0' ≤ c ∧ c ≤ '9' then some (c.toNat - 48)
  else if 'a' ≤ c ∧ c ≤ 'f' then some (c.toNat - 87)
  else if 'A' ≤ c ∧ c ≤ 'F' then some (c.toNat - 55)
  else none

/-- Modelled platform primitive: `Buffer.prototype.toString('hex')` — two
lowercase hex digits per byte, no separators. -/
def nodeHexEncode (b : List Nat) : List Char :=
  b.flatMap (fun byte => [hexDigitChar (byte / 16), hexDigitChar (byte % 16)])

/-- Modelled platform primitive: `Buffer.from(s, 'hex')` — Node's hex decoder:
consumes two characters per byte, stops (truncating the result) at the first
pair containing a non-hex character, and drops a trailing unpaired character.
It never throws. -/
def nodeHexDecode : List Char → List Nat
  | c1 :: c2 :: rest =>
      match hexVal c1, hexVal c2 with
      | some h, some l => (h * 16 + l) :: nodeHexDecode rest
      | _, _ => []
  | _ => []

/-- Modelled platform primitive: `Number.prototype.toString(16)` restricted to
byte values (< 256): one lowercase digit below 16, otherwise two. -/
def jsToStringHex (b : Nat) : List Char :=
  if b < 16 then [hexDigitChar b] else [hexDigitChar (b / 16), hexDigitChar (b % 16)]

/-- `String.prototype.padStart(2, '0')` for strings of length at most 2. -/
def padStart2 (l : List Char) : List Char :=
  if l.length < 2 then '0' :: l else l

/-- Modelled platform primitive: `parseInt(two-character string, 16)`, combined
with the `Uint8Array` store of the source's decode loop: a leading non-hex
character yields `NaN`, which the typed-array store coerces to 0; a trailing
non-hex character leaves only the first digit's value.  (The sign/whitespace
prefixes `parseInt` would also accept are not modelled; no claim depends on
them.) -/
def parseIntHex2 (c1 c2 : Char) : Nat :=
  match hexVal c1 with
  | none => 0
  | some h =>
      match hexVal c2 with
      | none => h
      | some l => h * 16 + l

/-! ## Browser codec helpers of the dual-environment `FileConverter`

These four private methods are translated from
`src/lib/FileConvertor.ts` (dual-environment class, lines 534-581).
-/

/-- `arrayBufferToBase64` (FileConvertor.ts 534-537): builds a binary string
with `String.fromCharCode` (the identity on the byte values, since a
`Uint8Array` entry is its own code unit) and applies `btoa`.  The `Option` is
`none` exactly when `btoa` throws. -/
def arrayBufferToBase64 (bytes : List Nat) : Option (List Char) :=
  btoaEncode bytes

/-- `base64ToArrayBuffer` (FileConvertor.ts 545-553): applies `atob` and copies
the binary string's code units into a `Uint8Array` (the identity on the byte
list).  The `Option` is `none` exactly when `atob` throws. -/
def base64ToArrayBuffer (s : List Char) : Option (List Nat) :=
  atobDecode s

/-- `arrayBufferToHex` (FileConvertor.ts 561-566): maps each byte through
`byte.toString(16).padStart(2, '0')` and joins the results. -/
def arrayBufferToHex (bytes : List Nat) : List Char :=
  bytes.flatMap (fun byte => padStart2 (jsToStringHex byte))

/-- `hexToArrayBuffer` (FileConvertor.ts 574-581): allocates `hex.length / 2`
bytes (JS float division, truncated by `ToIndex`) and stores
`parseInt(hex.substr(i, 2), 16)` at `i / 2` for each even `i`.  For odd input
length the final single-character store targets an out-of-range index and is
silently discarded, so the dangling character is dropped; invalid characters
become 0 or a single-digit value via `parseIntHex2`.  It never throws. -/
def hexToArrayBuffer : List Char → List Nat
  | c1 :: c2 :: rest => parseIntHex2 c1 c2 :: hexToArrayBuffer rest
  | _ => []

/-! ## URL classification

`isURL` (FileConvertor.ts 339-346, identical in the server-only variant at
94-101) returns whether `new URL(str)` succeeds.  `new URL` is a platform
primitive; `urlParseOk` models the WHATWG URL parser's success condition:
the input must begin with a scheme (`ALPHA *( ALPHA / DIGIT / "+" / "-" / "." )`
followed by `:`); for the special hierarchical schemes `http`, `https`, `ws`,
`wss`, `ftp` a nonempty host must follow, while every other scheme (including
`file` and all opaque-path schemes such as `mailto` or `data`) needs no
authority.  Host-character validation, IDNA, userinfo and port checking are not
modelled; no claim depends on them. -/

def isAsciiAlpha (c : Char) : Bool :=
  ('A' ≤ c && c ≤ 'Z') || ('a' ≤ c && c ≤ 'z')

def isAsciiDigit (c : Char) : Bool := '0' ≤ c && c ≤ '9'

def isSchemeChar (c : Char) : Bool :=
  isAsciiAlpha c || isAsciiDigit c || c = '+' || c = '-' || c = '.'

/-- Splits `scheme ++ ':' ++ rest` after an initial alphabetic character;
`none` when the input has no valid scheme prefix (a relative URL, which
`new URL` rejects without a base). -/
def splitScheme (s : List Char) : Option (List Char × List Char) :=
  match s with
  | [] => none
  | c :: rest => if isAsciiAlpha c then schemeAux [c] rest else none
where
  schemeAux (acc : List Char) : List Char → Option (List Char × List Char)
    | [] => none
    | ':' :: r => some (acc, r)
    | c :: r => if isSchemeChar c then schemeAux (acc ++ [c]) r else none

/-- The special hierarchical schemes that require a nonempty host. -/
def specialSchemes : List (List Char) :=
  ["http".toList, "https".toList, "ws".toList, "wss".toList, "ftp".toList]

/-- After the `:` of a special scheme: skip any run of slashes, then require a
nonempty host segment before the next `/`, `\`, `?` or `#`. -/
def specialHostOk (rest : List Char) : Bool :=
  let afterSlashes := rest.dropWhile (fun c => c = '/' || c = '\\')
  let authority := afterSlashes.takeWhile (fun c => c ≠ '/' && c ≠ '\\' && c ≠ '?' && c ≠ '#')
  !authority.isEmpty

/-- Modelled platform primitive: whether `new URL(s)` succeeds (see section
comment for the modelled fragment).  Control characters the parser strips
(tab, LF, CR anywhere; C0/space at the ends) are removed first. -/
def urlParseOk (s : List Char) : Bool :=
  let noTabNl := s.filter (fun c => c ≠ '\t' && c ≠ '\n' && c ≠ '\r')
  let t := (noTabNl.dropWhile (fun c => c ≤ ' ')).reverse.dropWhile (fun c => c ≤ ' ') |>.reverse
  match splitScheme t with
  | none => false
  | some (scheme, rest) =>
      if (scheme.map Char.toLower) ∈ specialSchemes then specialHostOk rest else true

/-- `isURL` (FileConvertor.ts 339-346): `new URL(str)` in a try/catch. -/
def isURL (s : List Char) : Bool := urlParseOk s

/-- Modelled from the spec: "test whether it parses as an absolute URL
(scheme + authority)" — an absolute URL that has both a scheme and a nonempty
authority component introduced by `//`.  This is the spec's classification
criterion, to be compared with the code's `isURL`. -/
def specIsURLWithAuthority (s : List Char) : Bool :=
  match splitScheme s with
  | none => false
  | some (_, rest) =>
      rest.take 2 = ['/', '/']
        && !((rest.drop 2).takeWhile (fun c => c ≠ '/' && c ≠ '?' && c ≠ '#')).isEmpty

/-! ## Stream accumulation

`convertFromStream` / `convertFromStreamToHex` (FileConvertor.ts 452-526) pull
chunks until the reader reports `done`, collect them in emission order, sum the
lengths, allocate one `Uint8Array` of the total length, and copy each chunk at
its running offset.  The pull loop is strictly sequential, so the stream is
modelled as the list of chunks it emits in order. -/

/-- The `reduce` computing the total length of the collected chunks. -/
def sumLens (chunks : List (List Nat)) : Nat :=
  chunks.foldl (fun acc c => acc + c.length) 0

/-- `concatenated.set(chunk, offset)`: overwrite `chunk.length` entries of
`buf` starting at `offset`. -/
def writeAt (buf : List Nat) (off : Nat) (chunk : List Nat) : List Nat :=
  buf.take off ++ chunk ++ buf.drop (off + chunk.length)

/-- The allocation-and-copy loop of `convertFromStream`: a zeroed buffer of the
total length, each chunk copied at its running offset. -/
def accumulateChunks (chunks : List (List Nat)) : List Nat :=
  (chunks.foldl (fun p c => (writeAt p.1 p.2 c, p.2 + c.length))
    (List.replicate (sumLens chunks) 0, 0)).1

/-! ## The converter classes -/

/-- The JS error conditions distinguished by the converter. -/
inductive JSErr where
  | invalidSource
  | ioError (msg : List Char)
  | atobError
  | missingFileName
deriving DecidableEq, Repr

/-- The artifact returned by a reverse conversion: a Node `Buffer` or a browser
`File` wrapping the decoded bytes. -/
inductive Artifact where
  | buffer (data : List Nat)
  | file (name : List Char) (data : List Nat)
deriving DecidableEq, Repr

/-- The runtime value passed to a forward conversion, classified the way the
source's `typeof` / `instanceof` dispatch observes it. -/
inductive JSValue where
  | str (s : List Char)
  | buffer (bytes : List Nat)
  | stream (chunks : List (List Nat))
  | fileHandle (content : List Nat)
  | blob (content : List Nat)
  | other
deriving DecidableEq, Repr

/-- The ambient I/O collaborators (file system, network); each call either
yields bytes / unit or throws. -/
structure IOEnv where
  readFile : List Char → Except (List Char) (List Nat)
  fetchURL : List Char → Except (List Char) (List Nat)
  writeFile : List Char → List Nat → Except (List Char) Unit

namespace Server

/-! Methods of the server-only `FileConverter` class
(`src/lib/FileConvertor.ts`, first build, lines 1-184). -/

/-- `fileToBase64` (server-only class, lines 14-37): dispatches on the runtime
type; a string is routed by `isURL` to the fetch helper or the file-read
helper; `Buffer` and `ReadableStream` go to their helpers; anything else
throws "invalid source type".  Every throw — including acquisition failures
inside the helpers — is caught and converted to `null`. -/
def fileToBase64 (io : IOEnv) (source : JSValue) : Option (List Char) :=
  match source with
  | .str s =>
      if isURL s then (io.fetchURL s).toOption.map nodeBase64Encode
      else (io.readFile s).toOption.map nodeBase64Encode
  | .buffer b => some (nodeBase64Encode b)
  | .stream chunks => some (nodeBase64Encode (accumulateChunks chunks))
  | _ => none

/-- `fileToHex` (server-only class, lines 61-69): reads the path and hex-encodes;
read failures are caught and converted to `null`. -/
def fileToHex (io : IOEnv) (filePath : List Char) : Option (List Char) :=
  (io.readFile filePath).toOption.map nodeHexEncode

/-- `base64ToFile` (server-only class, lines 46-54): decodes with
`Buffer.from(_, 'base64')` (which never throws) and writes the buffer to
`outputPath`; a write failure is logged and re-thrown for the caller. -/
def base64ToFile (io : IOEnv) (base64String outputPath : List Char) :
    Except (List Char) Unit :=
  io.writeFile outputPath (nodeBase64DecodeBytes base64String)

/-- `hexToFile` (server-only class, lines 78-86): decodes with
`Buffer.from(_, 'hex')` (which never throws) and writes the buffer to
`outputPath`; a write failure is logged and re-thrown for the caller. -/
def hexToFile (io : IOEnv) (hexString outputPath : List Char) :
    Except (List Char) Unit :=
  io.writeFile outputPath (nodeHexDecode hexString)

end Server

namespace Dual

/-! Methods of the dual-environment `FileConverter` class
(`src/lib/FileConvertor.ts`, second build, lines 189-582).  The `isBrowser()`
probe (window and document both present) is modelled as the boolean argument
`br`, evaluated fresh by the caller. -/

/-- `convertFromStream` (lines 452-485): collect the chunks in order, copy them
at their running offsets into one buffer, then base64-encode with the
environment's codec.  A `btoa` failure is caught and converted to `null`. -/
def convertFromStream (br : Bool) (chunks : List (List Nat)) : Option (List Char) :=
  let concatenated := accumulateChunks chunks
  if br then arrayBufferToBase64 concatenated else some (nodeBase64Encode concatenated)

/-- `convertFromStreamToHex` (lines 493-526): same accumulation, hex codec
(total in both environments). -/
def convertFromStreamToHex (br : Bool) (chunks : List (List Nat)) : Option (List Char) :=
  let concatenated := accumulateChunks chunks
  some (if br then arrayBufferToHex concatenated else nodeHexEncode concatenated)

/-- `fileToBase64` (lines 195-222): a string is a URL or an invalid source
(bare paths are rejected in this class); `File`/`Blob` content, `Buffer` and
`ReadableStream` are encoded with the environment's codec.  Every throw is
caught and converted to `null`. -/
def fileToBase64 (br : Bool) (io : IOEnv) (source : JSValue) : Option (List Char) :=
  match source with
  | .str s =>
      if isURL s then
        match io.fetchURL s with
        | .ok bytes => if br then arrayBufferToBase64 bytes else some (nodeBase64Encode bytes)
        | .error _ => none
      else none
  | .fileHandle content =>
      if br then arrayBufferToBase64 content else some (nodeBase64Encode content)
  | .blob content =>
      if br then arrayBufferToBase64 content else some (nodeBase64Encode content)
  | .buffer b => some (nodeBase64Encode b)
  | .stream chunks => convertFromStream br chunks
  | .other => none

/-- `fileToHex` (lines 229-256): the hex counterpart of `fileToBase64`. -/
def fileToHex (br : Bool) (io : IOEnv) (source : JSValue) : Option (List Char) :=
  match source with
  | .str s =>
      if isURL s then
        match io.fetchURL s with
        | .ok bytes => some (if br then arrayBufferToHex bytes else nodeHexEncode bytes)
        | .error _ => none
      else none
  | .fileHandle content => some (if br then arrayBufferToHex content else nodeHexEncode content)
  | .blob content => some (if br then arrayBufferToHex content else nodeHexEncode content)
  | .buffer b => some (nodeHexEncode b)
  | .stream chunks => convertFromStreamToHex br chunks
  | .other => none

/-- `base64ToFile` (lines 265-289): first decodes — `base64ToArrayBuffer`
(browser, may throw in `atob`) or `Buffer.from(_, 'base64')` (Node, total) —
then, in the browser, requires `fileName` and wraps the bytes in a named
`File`; in Node it returns a `Buffer` copy.  Failures are re-thrown. -/
def base64ToFile (br : Bool) (base64String : List Char) (fileName : Option (List Char)) :
    Except JSErr Artifact :=
  match (if br then
           match base64ToArrayBuffer base64String with
           | some bytes => Except.ok bytes
           | none => Except.error JSErr.atobError
         else Except.ok (nodeBase64DecodeBytes base64String) : Except JSErr (List Nat)) with
  | .error e => .error e
  | .ok buf =>
      if br then
        match fileName with
        | none => .error .missingFileName
        | some n => .ok (.file n buf)
      else .ok (.buffer buf)

/-- `hexToFile` (lines 298-322): first decodes — `hexToArrayBuffer` (browser)
or `Buffer.from(_, 'hex')` (Node), neither of which can throw — then, in the
browser, requires `fileName` and wraps the bytes in a named `File`; in Node it
returns a `Buffer` copy.  Failures are re-thrown. -/
def hexToFile (br : Bool) (hexString : List Char) (fileName : Option (List Char)) :
    Except JSErr Artifact :=
  match (Except.ok (if br then hexToArrayBuffer hexString else nodeHexDecode hexString) :
          Except JSErr (List Nat)) with
  | .error e => .error e
  | .ok buf =>
      if br then
        match fileName with
        | none => .error .missingFileName
        | some n => .ok (.file n buf)
      else .ok (.buffer buf)

end Dual

namespace Localization

/-! The `Localization` façade (`src/lib/Localization.ts`).  The class keeps one
static field `currentLocale`; it is threaded explicitly as the state argument
`current`.  `Intl.NumberFormat.supportedLocalesOf` is a platform primitive,
modelled as the predicate argument `supported`. -/

/-- The message of the error thrown for an unsupported locale, after the
catch block's rewrapping (lines 23-33). -/
def unsupportedMsg (localeCode : List Char) : List Char :=
  "An error occurred: Locale '".toList ++ localeCode ++ "' is not supported.".toList

/-- `setLocale` (lines 23-33): if the locale is supported the static field is
assigned; otherwise an error is thrown (and rewrapped by the catch) and the
field is never assigned.  Returns the thrown-or-ok outcome and the new state. -/
def setLocale (supported : List Char → Bool) (localeCode current : List Char) :
    Except (List Char) Unit × List Char :=
  if supported localeCode then (.ok (), localeCode)
  else (.error (unsupportedMsg localeCode), current)

/-- `getLocale` (lines 39-41): returns the static field. -/
def getLocale (current : List Char) : List Char := current

end Localization

deriving instance DecidableEq for Except

/-! ## Helper lemmas: alphabet and digits -/

theorem unbase64_valToB64Char : ∀ v, v < 64 → unbase64 (valToB64Char v) = some v := by
  decide

theorem valToB64Char_lt_ne_pad : ∀ v, v < 64 → valToB64Char v ≠ '=' := by
  decide

theorem valToB64Char_ne_pad (v : Nat) : valToB64Char v ≠ '=' := by
  by_cases h : v < 64
  · exact valToB64Char_lt_ne_pad v h
  · have hlen : base64Alphabet.length ≤ v := by
      have h64 : base64Alphabet.length = 64 := by decide
      omega
    simp [valToB64Char, List.getD, List.getElem?_eq_none hlen]

theorem valToB64Char_not_ws : ∀ v, v < 64 → isJsWhitespace (valToB64Char v) = false := by
  decide

theorem hexVal_hexDigitChar : ∀ d, d < 16 → hexVal (hexDigitChar d) = some d := by
  decide

/-! ## Helper lemmas: base64 values -/

theorem b64DecodeVals_b64EncodeVals :
    ∀ b : List Nat, ByteOk b → b64DecodeVals (b64EncodeVals b) = b := by
  intro b
  induction b using b64EncodeVals.induct with
  | case1 b1 b2 b3 rest ih =>
      intro hb
      have h1 : b1 < 256 := hb b1 (by simp)
      have h2 : b2 < 256 := hb b2 (by simp)
      have h3 : b3 < 256 := hb b3 (by simp)
      have hrest : ByteOk rest := fun x hx => hb x (by simp [hx])
      simp only [b64EncodeVals, b64DecodeVals, List.cons.injEq]
      exact ⟨by omega, by omega, by omega, ih hrest⟩
  | case2 b1 b2 =>
      intro hb
      have h1 : b1 < 256 := hb b1 (by simp)
      have h2 : b2 < 256 := hb b2 (by simp)
      simp only [b64EncodeVals, b64DecodeVals, List.cons.injEq]
      exact ⟨by omega, by omega, trivial⟩
  | case3 b1 =>
      intro hb
      have h1 : b1 < 256 := hb b1 (by simp)
      simp only [b64EncodeVals, b64DecodeVals, List.cons.injEq]
      exact ⟨by omega, trivial⟩
  | case4 => intro _; rfl

theorem b64EncodeVals_lt :
    ∀ b : List Nat, ByteOk b → ∀ v ∈ b64EncodeVals b, v < 64 := by
  intro b
  induction b using b64EncodeVals.induct with
  | case1 b1 b2 b3 rest ih =>
      intro hb
      have h1 : b1 < 256 := hb b1 (by simp)
      have h2 : b2 < 256 := hb b2 (by simp)
      have h3 : b3 < 256 := hb b3 (by simp)
      have hrest : ByteOk rest := fun x hx => hb x (by simp [hx])
      intro v hv
      simp only [b64EncodeVals, List.mem_cons] at hv
      rcases hv with rfl | rfl | rfl | rfl | hv
      · omega
      · omega
      · omega
      · omega
      · exact ih hrest v hv
  | case2 b1 b2 =>
      intro hb
      have h1 : b1 < 256 := hb b1 (by simp)
      have h2 : b2 < 256 := hb b2 (by simp)
      intro v hv
      simp only [b64EncodeVals, List.mem_cons, List.not_mem_nil, or_false] at hv
      rcases hv with rfl | rfl | rfl <;> omega
  | case3 b1 =>
      intro hb
      have h1 : b1 < 256 := hb b1 (by simp)
      intro v hv
      simp only [b64EncodeVals, List.mem_cons, List.not_mem_nil, or_false] at hv
      rcases hv with rfl | rfl <;> omega
  | case4 => intro _ v hv; simp [b64EncodeVals] at hv

theorem b64EncodeVals_length (b : List Nat) :
    (b64EncodeVals b).length = (4 * b.length + 2) / 3 := by
  induction b using b64EncodeVals.induct with
  | case1 b1 b2 b3 rest ih => simp only [b64EncodeVals, List.length_cons, ih]; omega
  | case2 b1 b2 => simp [b64EncodeVals]
  | case3 b1 => simp [b64EncodeVals]
  | case4 => simp [b64EncodeVals]

theorem b64Pad_shape (n : Nat) : b64Pad n = [] ∨ ∃ r, b64Pad n = '=' :: r := by
  unfold b64Pad
  rcases hn : n % 3 with _ | m
  · exact Or.inl rfl
  · rcases m with _ | k
    · exact Or.inr ⟨['='], rfl⟩
    · exact Or.inr ⟨[], rfl⟩

theorem nodeCollectB64_map_pad (vs : List Nat) (pad : List Char)
    (h : ∀ v ∈ vs, v < 64) (hp : pad = [] ∨ ∃ r, pad = '=' :: r) :
    nodeCollectB64 (vs.map valToB64Char ++ pad) = vs := by
  induction vs with
  | nil =>
      rcases hp with h0 | ⟨r, hr⟩
      · simp [h0, nodeCollectB64]
      · simp [hr, nodeCollectB64]
  | cons v vs ih =>
      have hv : v < 64 := h v (by simp)
      simp only [List.map_cons, List.cons_append, nodeCollectB64]
      rw [if_neg (valToB64Char_ne_pad v), unbase64_valToB64Char v hv]
      exact congrArg (v :: ·) (ih (fun x hx => h x (by simp [hx])))

theorem nodeBase64_roundtrip (b : List Nat) (hb : ByteOk b) :
    nodeBase64DecodeBytes (nodeBase64Encode b) = b := by
  unfold nodeBase64DecodeBytes nodeBase64Encode
  rw [nodeCollectB64_map_pad _ _ (b64EncodeVals_lt b hb) (b64Pad_shape b.length),
    b64DecodeVals_b64EncodeVals b hb]

theorem stripPad_of_no_pad (l : List Char) (h : '=' ∉ l) : stripPad l = l := by
  unfold stripPad
  split
  · next c r heq =>
      have hc : c ≠ '=' := by
        intro hceq
        apply h
        apply List.mem_reverse.mp
        rw [heq, hceq]
        simp
      rw [if_neg hc]
  · rfl

theorem stripPad_append_pad (l : List Char) (n : Nat) (h : '=' ∉ l) :
    stripPad (l ++ b64Pad n) = l := by
  rcases b64Pad_shape n with h0 | ⟨r, hr⟩
  · rw [h0, List.append_nil]
    exact stripPad_of_no_pad l h
  · have hcase : b64Pad n = ['='] ∨ b64Pad n = ['=', '='] := by
      unfold b64Pad
      rcases hn : n % 3 with _ | m
      · rw [b64Pad, hn] at hr; simp at hr
      · rcases m with _ | k
        · exact Or.inr rfl
        · exact Or.inl rfl
    rcases hcase with hp | hp
    · rw [hp]
      rcases hl : l.reverse with _ | ⟨c, cs⟩
      · have : l = [] := by simpa using congrArg List.reverse hl
        subst this
        rfl
      · have hc : c ≠ '=' := by
          intro hceq
          apply h
          apply List.mem_reverse.mp
          rw [hl, hceq]
          simp
        have hrev : (l ++ ['=']).reverse = '=' :: c :: cs := by
          rw [List.reverse_append, hl]; rfl
        unfold stripPad
        rw [hrev]
        simp only [hc, if_true, if_false, reduceIte]
        have hll := congrArg List.reverse hl
        rw [List.reverse_reverse] at hll
        exact hll.symm
    · rw [hp]
      have hrev : (l ++ ['=', '=']).reverse = '=' :: '=' :: l.reverse := by
        rw [List.reverse_append]; rfl
      unfold stripPad
      rw [hrev]
      simp only [reduceIte]
      exact List.reverse_reverse l


theorem nodeBase64Encode_no_pad_in_map (b : List Nat) :
    '=' ∉ (b64EncodeVals b).map valToB64Char := by
  intro hmem
  rcases List.mem_map.mp hmem with ⟨v, _, hv⟩
  exact valToB64Char_ne_pad v hv

theorem nodeBase64Encode_filter_ws (b : List Nat) (hb : ByteOk b) :
    (nodeBase64Encode b).filter (fun c => !isJsWhitespace c) = nodeBase64Encode b := by
  apply List.filter_eq_self.mpr
  intro c hc
  unfold nodeBase64Encode at hc
  rcases List.mem_append.mp hc with hmap | hpad
  · rcases List.mem_map.mp hmap with ⟨v, hv, rfl⟩
    have := valToB64Char_not_ws v (b64EncodeVals_lt b hb v hv)
    simp [this]
  · have : c = '=' := by
      rcases b64Pad_shape b.length with h0 | ⟨r, hr⟩
      · rw [h0] at hpad; simp at hpad
      · have hcase : b64Pad b.length = ['='] ∨ b64Pad b.length = ['=', '='] := by
          unfold b64Pad
          rcases hn : b.length % 3 with _ | m
          · rw [b64Pad, hn] at hr; simp at hr
          · rcases m with _ | k
            · exact Or.inr rfl
            · exact Or.inl rfl
        rcases hcase with hp | hp <;> rw [hp] at hpad <;> simpa using hpad
    subst this
    decide

theorem nodeBase64Encode_length_mod (b : List Nat) :
    (nodeBase64Encode b).length % 4 = 0 := by
  unfold nodeBase64Encode
  rw [List.length_append, List.length_map, b64EncodeVals_length]
  unfold b64Pad
  rcases hn : b.length % 3 with _ | m
  · simp only [List.length_nil]; omega
  · rcases m with _ | k
    · simp only [List.length_cons, List.length_nil]; omega
    · simp only [List.length_cons, List.length_nil]; omega

theorem atobDecode_nodeBase64Encode (b : List Nat) (hb : ByteOk b) :
    atobDecode (nodeBase64Encode b) = some b := by
  unfold atobDecode
  simp only [nodeBase64Encode_filter_ws b hb]
  rw [if_pos (nodeBase64Encode_length_mod b)]
  unfold nodeBase64Encode
  rw [stripPad_append_pad _ _ (nodeBase64Encode_no_pad_in_map b)]
  have hlen : ¬ ((b64EncodeVals b).map valToB64Char).length % 4 = 1 := by
    rw [List.length_map, b64EncodeVals_length]
    omega
  rw [if_neg hlen]
  have hall : ((b64EncodeVals b).map valToB64Char).all (fun c => (unbase64 c).isSome) = true := by
    rw [List.all_eq_true]
    intro c hc
    rcases List.mem_map.mp hc with ⟨v, hv, rfl⟩
    rw [unbase64_valToB64Char v (b64EncodeVals_lt b hb v hv)]
    rfl
  rw [if_pos hall]
  have hmap : ((b64EncodeVals b).map valToB64Char).map (fun c => (unbase64 c).getD 0)
      = b64EncodeVals b := by
    rw [List.map_map]
    have := List.map_congr_left
      (fun v hv => by
        show ((unbase64 (valToB64Char v)).getD 0) = id v
        rw [unbase64_valToB64Char v (b64EncodeVals_lt b hb v hv)]
        rfl)
    rw [Function.comp_def, this, List.map_id]
  rw [hmap, b64DecodeVals_b64EncodeVals b hb]

theorem group6_flatMap_byteBits :
    ∀ b : List Nat, ByteOk b →
      (group6 (b.flatMap byteBits)).map valOfBits = b64EncodeVals b := by
  intro b
  induction b using b64EncodeVals.induct with
  | case1 b1 b2 b3 rest ih =>
      intro hb
      have h1 : b1 < 256 := hb b1 (by simp)
      have h2 : b2 < 256 := hb b2 (by simp)
      have h3 : b3 < 256 := hb b3 (by simp)
      have hrest : ByteOk rest := fun x hx => hb x (by simp [hx])
      simp only [List.flatMap_cons, byteBits, List.cons_append, List.nil_append,
        group6, List.map_cons, valOfBits, List.foldl_cons, List.foldl_nil,
        b64EncodeVals, List.cons.injEq]
      refine ⟨by omega, by omega, by omega, by omega, ?_⟩
      have := ih hrest
      simpa [valOfBits] using this
  | case2 b1 b2 =>
      intro hb
      have h1 : b1 < 256 := hb b1 (by simp)
      have h2 : b2 < 256 := hb b2 (by simp)
      simp only [List.flatMap_cons, List.flatMap_nil, byteBits, List.cons_append,
        List.nil_append, List.append_nil, group6, List.map_cons, List.map_nil,
        valOfBits, List.foldl_cons, List.foldl_nil, b64EncodeVals, List.cons.injEq]
      refine ⟨by omega, by omega, by omega, trivial⟩
  | case3 b1 =>
      intro hb
      have h1 : b1 < 256 := hb b1 (by simp)
      simp only [List.flatMap_cons, List.flatMap_nil, byteBits, List.cons_append,
        List.nil_append, List.append_nil, group6, List.map_cons, List.map_nil,
        valOfBits, List.foldl_cons, List.foldl_nil, b64EncodeVals, List.cons.injEq]
      refine ⟨by omega, by omega, trivial⟩
  | case4 => intro _; rfl

theorem btoaEncode_eq_nodeBase64Encode (b : List Nat) (hb : ByteOk b) :
    btoaEncode b = some (nodeBase64Encode b) := by
  unfold btoaEncode nodeBase64Encode
  have hall : (b.all fun x => decide (x < 256)) = true := by
    rw [List.all_eq_true]
    intro x hx
    exact decide_eq_true (hb x hx)
  rw [if_pos hall]
  have : (group6 (b.flatMap byteBits)).map (fun g => valToB64Char (valOfBits g))
      = (b64EncodeVals b).map valToB64Char := by
    have hfuse : (group6 (b.flatMap byteBits)).map (fun g => valToB64Char (valOfBits g))
        = ((group6 (b.flatMap byteBits)).map valOfBits).map valToB64Char := by
      rw [List.map_map]
      rfl
    rw [hfuse, group6_flatMap_byteBits b hb]
  rw [this]

/-! ## Helper lemmas: hex -/

theorem nodeHex_roundtrip (b : List Nat) (hb : ByteOk b) :
    nodeHexDecode (nodeHexEncode b) = b := by
  induction b with
  | nil => rfl
  | cons x xs ih =>
      have hx : x < 256 := hb x (by simp)
      have hrest : ByteOk xs := fun y hy => hb y (by simp [hy])
      simp only [nodeHexEncode, List.flatMap_cons, List.cons_append, List.nil_append,
        nodeHexDecode]
      rw [hexVal_hexDigitChar (x / 16) (by omega), hexVal_hexDigitChar (x % 16) (by omega)]
      have htail : nodeHexDecode (xs.flatMap
          (fun byte => [hexDigitChar (byte / 16), hexDigitChar (byte % 16)])) = xs := ih hrest
      rw [List.cons.injEq]
      exact ⟨by omega, htail⟩

theorem padStart2_jsToStringHex (x : Nat) (hx : x < 256) :
    padStart2 (jsToStringHex x) = [hexDigitChar (x / 16), hexDigitChar (x % 16)] := by
  by_cases h : x < 16
  · rw [jsToStringHex, if_pos h]
    rw [show x / 16 = 0 by omega, show x % 16 = x by omega]
    rfl
  · rw [jsToStringHex, if_neg h]
    rfl

theorem arrayBufferToHex_eq_nodeHexEncode (b : List Nat) (hb : ByteOk b) :
    arrayBufferToHex b = nodeHexEncode b := by
  induction b with
  | nil => rfl
  | cons x xs ih =>
      have hx : x < 256 := hb x (by simp)
      have hrest : ByteOk xs := fun y hy => hb y (by simp [hy])
      simp only [arrayBufferToHex, nodeHexEncode, List.flatMap_cons] at ih ⊢
      rw [padStart2_jsToStringHex x hx, ih hrest]

theorem hexToArrayBuffer_nodeHexEncode (b : List Nat) (hb : ByteOk b) :
    hexToArrayBuffer (nodeHexEncode b) = b := by
  induction b with
  | nil => rfl
  | cons x xs ih =>
      have hx : x < 256 := hb x (by simp)
      have hrest : ByteOk xs := fun y hy => hb y (by simp [hy])
      simp only [nodeHexEncode, List.flatMap_cons, List.cons_append, List.nil_append,
        hexToArrayBuffer, parseIntHex2]
      rw [hexVal_hexDigitChar (x / 16) (by omega), hexVal_hexDigitChar (x % 16) (by omega)]
      have htail : hexToArrayBuffer (xs.flatMap
          (fun byte => [hexDigitChar (byte / 16), hexDigitChar (byte % 16)])) = xs := ih hrest
      rw [List.cons.injEq]
      refine ⟨?_, htail⟩
      show x / 16 * 16 + x % 16 = x
      omega

/-! ## Helper lemmas: stream accumulation -/

theorem sumLens_foldl (cs : List (List Nat)) :
    ∀ a, List.foldl (fun acc c => acc + c.length) a cs
      = a + List.foldl (fun acc c => acc + c.length) 0 cs := by
  induction cs with
  | nil => intro a; simp
  | cons c cs ih =>
      intro a
      rw [List.foldl_cons, List.foldl_cons, ih (a + c.length), ih (0 + c.length)]
      omega

theorem sumLens_cons (c : List Nat) (cs : List (List Nat)) :
    sumLens (c :: cs) = c.length + sumLens cs := by
  unfold sumLens
  rw [List.foldl_cons, sumLens_foldl cs (0 + c.length)]
  omega

theorem replicate_add_drop (n m : Nat) :
    (List.replicate (n + m) (0 : Nat)).drop n = List.replicate m 0 := by
  rw [List.drop_replicate]
  congr 1
  omega

theorem accumulate_aux :
    ∀ (chunks : List (List Nat)) (pre : List Nat),
      (chunks.foldl (fun p c => (writeAt p.1 p.2 c, p.2 + c.length))
        (pre ++ List.replicate (sumLens chunks) 0, pre.length)).1 = pre ++ chunks.flatten := by
  intro chunks
  induction chunks with
  | nil => intro pre; simp [sumLens]
  | cons c cs ih =>
      intro pre
      rw [List.foldl_cons]
      have hw : writeAt (pre ++ List.replicate (sumLens (c :: cs)) 0) pre.length c
          = (pre ++ c) ++ List.replicate (sumLens cs) 0 := by
        unfold writeAt
        rw [sumLens_cons]
        rw [List.take_left]
        have hd : (pre ++ List.replicate (c.length + sumLens cs) 0).drop (pre.length + c.length)
            = List.replicate (sumLens cs) 0 := by
          rw [List.drop_append, replicate_add_drop]
        rw [hd]
      rw [hw]
      have hoff : pre.length + c.length = (pre ++ c).length := by simp
      rw [hoff]
      have := ih (pre ++ c)
      simpa [List.append_assoc] using this

theorem accumulateChunks_flatten (chunks : List (List Nat)) :
    accumulateChunks chunks = chunks.flatten := by
  have h := accumulate_aux chunks []
  simpa [accumulateChunks] using h

/-! ## Helper lemmas: odd-length hex truncation -/

theorem hexToArrayBuffer_dropLast :
    ∀ s : List Char, s.length % 2 = 1 → hexToArrayBuffer s = hexToArrayBuffer s.dropLast := by
  intro s
  induction s using hexToArrayBuffer.induct with
  | case1 c1 c2 rest ih =>
      intro hodd
      have hrodd : rest.length % 2 = 1 := by
        simp only [List.length_cons] at hodd
        omega
      rcases rest with _ | ⟨r, rs⟩
      · simp at hrodd
      · rw [List.dropLast_cons₂, List.dropLast_cons₂]
        simp only [hexToArrayBuffer]
        rw [ih hrodd]
  | case2 x h1 =>
      intro hodd
      rcases x with _ | ⟨c, cs⟩
      · simp at hodd
      · rcases cs with _ | ⟨c2, cs2⟩
        · rfl
        · exact (h1 c c2 cs2 rfl).elim

theorem nodeHexDecode_dropLast :
    ∀ s : List Char, s.length % 2 = 1 → nodeHexDecode s = nodeHexDecode s.dropLast := by
  intro s
  induction s using nodeHexDecode.induct with
  | case1 c1 c2 rest h l heq2 heq1 ih =>
      intro hodd
      have hrodd : rest.length % 2 = 1 := by
        simp only [List.length_cons] at hodd
        omega
      rcases rest with _ | ⟨r, rs⟩
      · simp at hrodd
      · rw [List.dropLast_cons₂, List.dropLast_cons₂]
        simp only [nodeHexDecode, heq1, heq2]
        rw [ih hrodd]
  | case2 c1 c2 rest hbad =>
      intro hodd
      have hrodd : rest.length % 2 = 1 := by
        simp only [List.length_cons] at hodd
        omega
      rcases rest with _ | ⟨r, rs⟩
      · simp at hrodd
      · rw [List.dropLast_cons₂, List.dropLast_cons₂]
        simp only [nodeHexDecode]
  | case3 x h1 =>
      intro hodd
      rcases x with _ | ⟨c, cs⟩
      · simp at hodd
      · rcases cs with _ | ⟨c2, cs2⟩
        · rfl
        · exact (h1 c c2 cs2 rfl).elim

/-! ## Claim theorems -/

/-- C1: for every byte sequence `b` (including the empty sequence), decoding the
encoding of `b` returns `b`, for both the base64 codec and the hex codec, in
both the server environment (Node `Buffer` path) and the browser environment
(`btoa`/`atob` and manual character-code path). -/
theorem claim_C1_roundtrip (b : List Nat) (hb : ByteOk b) :
    nodeBase64DecodeBytes (nodeBase64Encode b) = b
      ∧ (arrayBufferToBase64 b).bind base64ToArrayBuffer = some b
      ∧ nodeHexDecode (nodeHexEncode b) = b
      ∧ hexToArrayBuffer (arrayBufferToHex b) = b := by
  refine ⟨nodeBase64_roundtrip b hb, ?_, nodeHex_roundtrip b hb, ?_⟩
  · show (btoaEncode b).bind atobDecode = some b
    rw [btoaEncode_eq_nodeBase64Encode b hb, Option.some_bind]
    exact atobDecode_nodeBase64Encode b hb
  · rw [arrayBufferToHex_eq_nodeHexEncode b hb]
    exact hexToArrayBuffer_nodeHexEncode b hb

/-- C1 witness: the round trips evaluated at the concrete byte list `[0, 77, 255]`. -/
theorem claim_C1_roundtrip_witness :
    ByteOk [0, 77, 255]
      ∧ (nodeBase64DecodeBytes (nodeBase64Encode [0, 77, 255]) = [0, 77, 255]
          ∧ (arrayBufferToBase64 [0, 77, 255]).bind base64ToArrayBuffer = some [0, 77, 255]
          ∧ nodeHexDecode (nodeHexEncode [0, 77, 255]) = [0, 77, 255]
          ∧ hexToArrayBuffer (arrayBufferToHex [0, 77, 255]) = [0, 77, 255]) :=
  ⟨by decide, claim_C1_roundtrip [0, 77, 255] (by decide)⟩

/-- C2: for every byte sequence, the server-environment encoder (Node
`Buffer.toString`) and the browser-environment encoder (`btoa` over
`String.fromCharCode`, resp. per-byte `toString(16).padStart(2, '0')`) produce
character-identical output text, for both base64 and hex. -/
theorem claim_C2_cross_env (b : List Nat) (hb : ByteOk b) :
    arrayBufferToBase64 b = some (nodeBase64Encode b)
      ∧ arrayBufferToHex b = nodeHexEncode b :=
  ⟨btoaEncode_eq_nodeBase64Encode b hb, arrayBufferToHex_eq_nodeHexEncode b hb⟩

/-- C2 witness: the two encoder pairs agree at the concrete byte list `[0, 1, 171, 255]`. -/
theorem claim_C2_cross_env_witness :
    ByteOk [0, 1, 171, 255]
      ∧ (arrayBufferToBase64 [0, 1, 171, 255] = some (nodeBase64Encode [0, 1, 171, 255])
          ∧ arrayBufferToHex [0, 1, 171, 255] = nodeHexEncode [0, 1, 171, 255]) :=
  ⟨by decide, claim_C2_cross_env [0, 1, 171, 255] (by decide)⟩

/-- C3: for every list of byte chunks and every environment, converting a
stream that emits those chunks in order yields the same encoded text (base64 or
hex) as converting a single buffer equal to their concatenation; the
accumulation loop reproduces exactly the concatenation (no reordering, no
drops, no gaps). -/
theorem claim_C3_stream_concat (br : Bool) (chunks : List (List Nat)) :
    accumulateChunks chunks = chunks.flatten
      ∧ Dual.convertFromStream br chunks = Dual.convertFromStream br [chunks.flatten]
      ∧ Dual.convertFromStreamToHex br chunks
        = Dual.convertFromStreamToHex br [chunks.flatten] := by
  have hacc := accumulateChunks_flatten chunks
  have hsingle : accumulateChunks [chunks.flatten] = chunks.flatten := by
    rw [accumulateChunks_flatten]
    simp
  refine ⟨hacc, ?_, ?_⟩
  · unfold Dual.convertFromStream
    rw [hacc, hsingle]
  · unfold Dual.convertFromStreamToHex
    rw [hacc, hsingle]

/-- C4: the error-propagation policy is asymmetric: the forward operations
(`fileToBase64`, `fileToHex`) convert every failure — invalid source type,
fetch failure, read failure — to a `null` result, while the reverse operations
(`base64ToFile`, `hexToFile`) propagate failures to the caller as a thrown
failure carrying the underlying cause. -/
theorem claim_C4_error_asymmetry
    (io : IOEnv) (br : Bool) (u s p b64 hex a : List Char) (e1 e2 e3 : List Char)
    (hu : isURL u = true) (hf : io.fetchURL u = .error e1)
    (hs : isURL s = false) (hr : io.readFile s = .error e2)
    (hw : io.writeFile p (nodeBase64DecodeBytes b64) = .error e3)
    (hw2 : io.writeFile p (nodeHexDecode hex) = .error e3)
    (ha : base64ToArrayBuffer a = none) :
    Dual.fileToBase64 br io (.str u) = none
      ∧ Dual.fileToHex br io (.str u) = none
      ∧ Dual.fileToBase64 br io .other = none
      ∧ Dual.fileToHex br io .other = none
      ∧ Server.fileToBase64 io (.str s) = none
      ∧ Server.fileToHex io s = none
      ∧ Server.base64ToFile io b64 p = .error e3
      ∧ Server.hexToFile io hex p = .error e3
      ∧ Dual.base64ToFile true a none = .error .atobError := by
  refine ⟨?_, ?_, rfl, rfl, ?_, ?_, ?_, ?_, ?_⟩
  · simp [Dual.fileToBase64, hu, hf]
  · simp [Dual.fileToHex, hu, hf]
  · simp [Server.fileToBase64, hs, hr, Except.toOption]
  · simp [Server.fileToHex, hr, Except.toOption]
  · simp [Server.base64ToFile, hw]
  · simp [Server.hexToFile, hw2]
  · simp [Dual.base64ToFile, ha]

/-- C4 witness: the asymmetry evaluated with a concrete all-failing I/O
environment, the URL string `http://x`, the non-URL string `noturl`, and the
malformed base64 text `????`. -/
theorem claim_C4_error_asymmetry_witness :
    Dual.fileToBase64 false
        ⟨fun _ => .error ("r".toList), fun _ => .error ("f".toList),
          fun _ _ => .error ("w".toList)⟩ (.str ("http://x".toList)) = none
      ∧ Dual.fileToHex false
        ⟨fun _ => .error ("r".toList), fun _ => .error ("f".toList),
          fun _ _ => .error ("w".toList)⟩ (.str ("http://x".toList)) = none
      ∧ Dual.fileToBase64 false
        ⟨fun _ => .error ("r".toList), fun _ => .error ("f".toList),
          fun _ _ => .error ("w".toList)⟩ .other = none
      ∧ Dual.fileToHex false
        ⟨fun _ => .error ("r".toList), fun _ => .error ("f".toList),
          fun _ _ => .error ("w".toList)⟩ .other = none
      ∧ Server.fileToBase64
        ⟨fun _ => .error ("r".toList), fun _ => .error ("f".toList),
          fun _ _ => .error ("w".toList)⟩ (.str ("noturl".toList)) = none
      ∧ Server.fileToHex
        ⟨fun _ => .error ("r".toList), fun _ => .error ("f".toList),
          fun _ _ => .error ("w".toList)⟩ ("noturl".toList) = none
      ∧ Server.base64ToFile
        ⟨fun _ => .error ("r".toList), fun _ => .error ("f".toList),
          fun _ _ => .error ("w".toList)⟩ ("VGVzdA==".toList) ("/out".toList)
        = .error ("w".toList)
      ∧ Server.hexToFile
        ⟨fun _ => .error ("r".toList), fun _ => .error ("f".toList),
          fun _ _ => .error ("w".toList)⟩ ("48".toList) ("/out".toList)
        = .error ("w".toList)
      ∧ Dual.base64ToFile true ("????".toList) none = .error .atobError :=
  claim_C4_error_asymmetry
    ⟨fun _ => .error ("r".toList), fun _ => .error ("f".toList),
      fun _ _ => .error ("w".toList)⟩
    false ("http://x".toList) ("noturl".toList) ("/out".toList)
    ("VGVzdA==".toList) ("48".toList) ("????".toList)
    ("f".toList) ("r".toList) ("w".toList)
    (by decide) rfl (by decide) rfl rfl rfl (by decide)

/-- C5 counterexample: in the browser environment, `base64ToFile` applied to the
malformed text `!!!!` with no name fails with the decode error, not with the
missing-required-parameter error — decoding is attempted before the name check,
contradicting the claim that the missing-name failure precedes any decoding. -/
theorem claim_C5_counterexample :
    Dual.base64ToFile true ("!!!!".toList) none = .error .atobError
      ∧ JSErr.atobError ≠ JSErr.missingFileName := by
  decide

/-- C5 (amended): invoking a browser-mode reverse conversion without a name
never produces an artifact, but decoding is attempted first: `hexToFile`
(whose decode cannot fail) always fails with the missing-required-parameter
error, and `base64ToFile` fails with that error exactly on inputs whose decode
succeeds (malformed base64 fails with the decode error instead, as the
counterexample shows). -/
theorem claim_C5_amended (s : List Char) :
    (∀ a, Dual.base64ToFile true s none ≠ Except.ok a)
      ∧ Dual.hexToFile true s none = .error .missingFileName
      ∧ (∀ bs, base64ToArrayBuffer s = some bs
          → Dual.base64ToFile true s none = .error .missingFileName) := by
  refine ⟨?_, ?_, ?_⟩
  · intro a
    rcases h : base64ToArrayBuffer s with _ | bs
    · simp [Dual.base64ToFile, h]
    · simp [Dual.base64ToFile, h]
  · simp [Dual.hexToFile]
  · intro bs h
    simp [Dual.base64ToFile, h]

/-- C5 amended witness: the no-name browser failure evaluated at the concrete
decodable text `QQ==`. -/
theorem claim_C5_amended_witness :
    Dual.base64ToFile true ("QQ==".toList) none = .error .missingFileName
      ∧ Dual.hexToFile true ("QQ==".toList) none = .error .missingFileName :=
  ⟨(claim_C5_amended ("QQ==".toList)).2.2 [65] (by decide),
    (claim_C5_amended ("QQ==".toList)).2.1⟩

/-- C6 counterexample: `hexToFile` applied to the odd-length hex text `abc`
produces an output artifact (the byte `0xab`, the dangling `c` silently
dropped) in both environments, contradicting the claim that odd-length input
fails. -/
theorem claim_C6_counterexample :
    Dual.hexToFile false ("abc".toList) none = .ok (.buffer [171])
      ∧ Dual.hexToFile true ("abc".toList) (some ("f".toList))
        = .ok (.file ("f".toList) [171]) := by
  decide

/-- C6 (amended): for every odd-length input string, hex decoding in
`hexToFile` does not fail in either environment: both decoders drop the
trailing unpaired character and return an artifact decoding the even-length
prefix. -/
theorem claim_C6_amended (s n : List Char) (hodd : s.length % 2 = 1) :
    Dual.hexToFile false s none = .ok (.buffer (nodeHexDecode s))
      ∧ Dual.hexToFile true s (some n) = .ok (.file n (hexToArrayBuffer s))
      ∧ hexToArrayBuffer s = hexToArrayBuffer s.dropLast
      ∧ nodeHexDecode s = nodeHexDecode s.dropLast := by
  exact ⟨rfl, rfl, hexToArrayBuffer_dropLast s hodd, nodeHexDecode_dropLast s hodd⟩

/-- C6 amended witness: the odd-length behaviour evaluated at the concrete
input `f0a` with name `n`. -/
theorem claim_C6_amended_witness :
    Dual.hexToFile false ("f0a".toList) none = .ok (.buffer (nodeHexDecode ("f0a".toList)))
      ∧ Dual.hexToFile true ("f0a".toList) (some ("n".toList))
        = .ok (.file ("n".toList) (hexToArrayBuffer ("f0a".toList)))
      ∧ hexToArrayBuffer ("f0a".toList) = hexToArrayBuffer ("f0a".toList).dropLast
      ∧ nodeHexDecode ("f0a".toList) = nodeHexDecode ("f0a".toList).dropLast :=
  claim_C6_amended ("f0a".toList) ("n".toList) (by decide)

/-- C7 counterexample: in the server environment, `base64ToFile` applied to the
malformed text `!!!!` succeeds with an empty buffer — Node's lenient decoder
silently skips the invalid characters — contradicting the claim that malformed
base64 fails cleanly in both environments. -/
theorem claim_C7_counterexample :
    Dual.base64ToFile false ("!!!!".toList) none = .ok (.buffer []) := by
  decide

/-- C7 (amended): only the browser environment fails cleanly on malformed
base64 (the forgiving-base64 decoder throws, and `base64ToFile` re-throws that
error); the server environment never fails: Node's decoder skips invalid
characters and stops at `=`, so `base64ToFile` always returns a (possibly
empty or partial) buffer. -/
theorem claim_C7_amended (s : List Char) (name : Option (List Char))
    (hbad : base64ToArrayBuffer s = none) :
    Dual.base64ToFile true s name = .error .atobError
      ∧ Dual.base64ToFile false s name = .ok (.buffer (nodeBase64DecodeBytes s)) := by
  constructor
  · simp [Dual.base64ToFile, hbad]
  · rfl

/-- C7 amended witness: the split behaviour evaluated at the concrete malformed
text `!!!`. -/
theorem claim_C7_amended_witness :
    Dual.base64ToFile true ("!!!".toList) none = .error .atobError
      ∧ Dual.base64ToFile false ("!!!".toList) none
        = .ok (.buffer (nodeBase64DecodeBytes ("!!!".toList))) :=
  claim_C7_amended ("!!!".toList) none (by decide)

/-- C8 counterexample: `mailto:test@example.com` parses as an absolute URL
without any authority component, yet `isURL` accepts it, so the resolver
treats it as a URL: with an I/O environment whose file read would succeed and
whose fetch fails, the server `fileToBase64` fetches (and yields `null`)
instead of reading the path — contradicting the claim that a string is treated
as a URL exactly when it has both a scheme and an authority. -/
theorem claim_C8_counterexample :
    isURL ("mailto:test@example.com".toList) = true
      ∧ specIsURLWithAuthority ("mailto:test@example.com".toList) = false
      ∧ Server.fileToBase64
          ⟨fun _ => .ok [72], fun _ => .error ("netfail".toList), fun _ _ => .ok ()⟩
          (.str ("mailto:test@example.com".toList)) = none := by
  decide

/-- C8 (amended): a string is treated as a URL exactly when the WHATWG URL
parser accepts it — a scheme is required, but an authority only for the
special hierarchical schemes — and the dispatch on that test is as claimed: a
URL string is fetched, a non-URL string is read as a local path in the
server-only class and rejected (null) in the dual-environment class. -/
theorem claim_C8_amended (io : IOEnv) (br : Bool) (s : List Char) :
    (isURL s = true → Server.fileToBase64 io (.str s)
        = (io.fetchURL s).toOption.map nodeBase64Encode)
      ∧ (isURL s = false → Server.fileToBase64 io (.str s)
        = (io.readFile s).toOption.map nodeBase64Encode)
      ∧ (isURL s = false → Dual.fileToBase64 br io (.str s) = none)
      ∧ (isURL s = false → Dual.fileToHex br io (.str s) = none) := by
  refine ⟨?_, ?_, ?_, ?_⟩ <;> intro h <;>
    simp [Server.fileToBase64, Dual.fileToBase64, Dual.fileToHex, h]

/-- C8 amended witness: the dispatch evaluated at the concrete non-URL string
`noturl` and the concrete URL string `wss://h/p`. -/
theorem claim_C8_amended_witness :
    (Server.fileToBase64
        ⟨fun _ => .ok [1], fun _ => .error [], fun _ _ => .ok ()⟩
        (.str ("noturl".toList))
      = ((⟨fun _ => .ok [1], fun _ => .error [], fun _ _ => .ok ()⟩ : IOEnv).readFile
          ("noturl".toList)).toOption.map nodeBase64Encode)
      ∧ Dual.fileToBase64 false
        ⟨fun _ => .ok [1], fun _ => .error [], fun _ _ => .ok ()⟩
        (.str ("noturl".toList)) = none
      ∧ (Server.fileToBase64
        ⟨fun _ => .ok [1], fun _ => .error [], fun _ _ => .ok ()⟩
        (.str ("wss://h/p".toList))
      = ((⟨fun _ => .ok [1], fun _ => .error [], fun _ _ => .ok ()⟩ : IOEnv).fetchURL
          ("wss://h/p".toList)).toOption.map nodeBase64Encode) :=
  ⟨(claim_C8_amended ⟨fun _ => .ok [1], fun _ => .error [], fun _ _ => .ok ()⟩
      false ("noturl".toList)).2.1 (by decide),
    (claim_C8_amended ⟨fun _ => .ok [1], fun _ => .error [], fun _ _ => .ok ()⟩
      false ("noturl".toList)).2.2.1 (by decide),
    (claim_C8_amended ⟨fun _ => .ok [1], fun _ => .error [], fun _ _ => .ok ()⟩
      false ("wss://h/p".toList)).1 (by decide)⟩

/-- C9: in the server environment the result of `base64ToFile` and `hexToFile`
is independent of the `fileName` argument: any two `fileName` values (including
absent) give identical Buffers, and the absence of `fileName` never causes a
missing-required-parameter failure — the call succeeds with the decoded
buffer. -/
theorem claim_C9_fileName_independence (s : List Char) (f1 f2 : Option (List Char)) :
    Dual.base64ToFile false s f1 = Dual.base64ToFile false s f2
      ∧ Dual.hexToFile false s f1 = Dual.hexToFile false s f2
      ∧ Dual.base64ToFile false s none = .ok (.buffer (nodeBase64DecodeBytes s))
      ∧ Dual.hexToFile false s none = .ok (.buffer (nodeHexDecode s)) :=
  ⟨rfl, rfl, rfl, rfl⟩

/-- C10: `Localization.setLocale` is atomic on error: when validation fails
(the call throws), the stored locale is unchanged, so a subsequent `getLocale`
returns the same value as before the failed call. -/
theorem claim_C10_setLocale_atomic (supported : List Char → Bool)
    (localeCode current m : List Char)
    (hfail : (Localization.setLocale supported localeCode current).1 = .error m) :
    Localization.getLocale (Localization.setLocale supported localeCode current).2
      = Localization.getLocale current := by
  unfold Localization.setLocale at hfail ⊢
  by_cases h : supported localeCode = true
  · rw [if_pos h] at hfail
    simp at hfail
  · rw [if_neg h]

/-- C10 witness: a failing `setLocale` call evaluated with a concrete
all-rejecting support predicate leaves the concrete stored locale `en-US`
unchanged. -/
theorem claim_C10_setLocale_atomic_witness :
    Localization.getLocale
        (Localization.setLocale (fun _ => false) ("xx".toList) ("en-US".toList)).2
      = Localization.getLocale ("en-US".toList) :=
  claim_C10_setLocale_atomic (fun _ => false) ("xx".toList) ("en-US".toList)
    (Localization.unsupportedMsg ("xx".toList)) rfl
